import Mathlib

/-!
# Verification of the route-optimizer core (`src/types/route.ts`)

Shallow embedding of the TSP-solver core of the `route-optimizer`
repository.  JavaScript numbers are modelled as exact rationals `ℚ`;
the `Infinity` sentinel used for missing/unavailable matrix entries is
modelled as `⊤` in `WithTop ℚ`.  The nested dictionary
`DistanceMatrix` (duck-typed lookup `matrix[fromId]?.[toId]`) is
modelled as a function `String → String → Option DistanceMatrixElement`.
The single `throw new Error('Base location not found')` in
`optimizeRoute` is modelled by `Except String`.
-/

namespace RouteOptimizer

/-- The `{text, value}` sub-objects of `DistanceMatrixElement`
(`distance.value` in meters, `duration.value` in seconds). -/
structure TextValue where
  text : String
  value : ℚ
  deriving DecidableEq, Repr

/-- `DistanceMatrixElement` from `src/types/route.ts`. -/
structure DistanceMatrixElement where
  distance : TextValue
  duration : TextValue
  status : String
  deriving DecidableEq, Repr

/-- `DistanceMatrix`: nested partial dictionary keyed by stop ids; the
optional-chaining lookup `matrix[fromId]?.[toId]` is a function to
`Option`. -/
def DistanceMatrix : Type := String → String → Option DistanceMatrixElement

/-- `Location` from `src/types/route.ts` (the optional `isBase?` flag
becomes a `Bool`, with `false` for the absent/undefined case, matching
its truthiness uses `l.isBase` and `!l.isBase`). -/
structure Location where
  id : String
  address : String
  lat : Option ℚ
  lng : Option ℚ
  isBase : Bool
  deriving DecidableEq, Repr

/-- `OptimizedRoute` from `src/types/route.ts`. -/
structure OptimizedRoute where
  order : List String
  totalDistance : ℚ
  totalTime : ℚ
  totalCost : ℚ
  deriving DecidableEq, Repr

/-- `TSPSolver.DISTANCE_WEIGHT`. -/
def DISTANCE_WEIGHT : ℚ := 0.3

/-- `TSPSolver.TIME_WEIGHT`. -/
def TIME_WEIGHT : ℚ := 0.7

/-- `TSPSolver.calculateCost`: `Infinity` (here `⊤`) for a missing
entry or a status other than `'OK'`, otherwise
`DISTANCE_WEIGHT * (meters/1000) + TIME_WEIGHT * (seconds/60)`. -/
def calculateCost (fromId toId : String) (matrix : DistanceMatrix) : WithTop ℚ :=
  match matrix fromId toId with
  | none => ⊤
  | some element =>
      if element.status ≠ "OK" then ⊤
      else ((DISTANCE_WEIGHT * (element.distance.value / 1000)
              + TIME_WEIGHT * (element.duration.value / 60) : ℚ) : WithTop ℚ)

/-- The inner `for` loop of `nearestNeighborTSP`: scans the remaining
`unvisited` stops carrying the loop counter `i` and the state
`(nearestIndex, minCost)`, updating it whenever a strictly smaller cost
is found. -/
def scanNearest (currentId : String) (matrix : DistanceMatrix) :
    List Location → Nat → Nat × WithTop ℚ → Nat × WithTop ℚ
  | [], _, st => st
  | loc :: rest, i, st =>
      scanNearest currentId matrix rest (i + 1)
        (if calculateCost currentId loc.id matrix < st.2
         then (i, calculateCost currentId loc.id matrix) else st)

/-- The index selected by one iteration of the `while` loop of
`nearestNeighborTSP`: initial state `nearestIndex = 0`,
`minCost = Infinity`. -/
def findNearestIdx (currentId : String) (unvisited : List Location)
    (matrix : DistanceMatrix) : Nat :=
  (scanNearest currentId matrix unvisited 0 (0, ⊤)).1

/-- Placeholder default for `List.getD`; never reached, since the
selected index is always in range (`findNearestIdx_lt`). -/
def dummyLocation : Location := ⟨"", "", none, none, false⟩

/-- The `while (unvisited.length > 0)` loop of `nearestNeighborTSP`:
each iteration removes the selected stop (`splice`) and appends its id.
The loop runs exactly `unvisited.length` times, which is supplied as
structural fuel. -/
def nnLoop (matrix : DistanceMatrix) : Nat → String → List Location → List String
  | 0, _, _ => []
  | _ + 1, _, [] => []
  | fuel + 1, currentId, unvisited@(_ :: _) =>
      let idx := findNearestIdx currentId unvisited matrix
      let nearest := unvisited.getD idx dummyLocation
      nearest.id :: nnLoop matrix fuel nearest.id (unvisited.eraseIdx idx)

/-- `TSPSolver.nearestNeighborTSP`: `route = [base.id]`, the greedy
loop over `deliveries`, then `route.push(base.id)`. -/
def nearestNeighborTSP (base : Location) (deliveries : List Location)
    (matrix : DistanceMatrix) : List String :=
  base.id :: (nnLoop matrix deliveries.length base.id deliveries ++ [base.id])

/-- `TSPSolver.calculateRouteTotals`: folds over consecutive pairs of
`order`, accumulating km, minutes and cost only for pairs whose entry
exists with status `'OK'` (in that branch `calculateCost` returns
exactly the finite weighted value added to `totalCost`). -/
def calculateRouteTotals (order : List String) (matrix : DistanceMatrix) :
    ℚ × ℚ × ℚ :=
  (order.zip order.tail).foldl
    (fun acc p =>
      match matrix p.1 p.2 with
      | some element =>
          if element.status = "OK" then
            (acc.1 + element.distance.value / 1000,
             acc.2.1 + element.duration.value / 60,
             acc.2.2 + (DISTANCE_WEIGHT * (element.distance.value / 1000)
                         + TIME_WEIGHT * (element.duration.value / 60)))
          else acc
      | none => acc)
    (0, 0, 0)

/-- `TSPSolver.optimizeRoute`.  The thrown
`Error('Base location not found')` becomes `Except.error`. -/
def optimizeRoute (locations : List Location) (distanceMatrix : DistanceMatrix) :
    Except String OptimizedRoute :=
  if locations.length ≤ 2 then
    .ok { order := locations.map Location.id
          totalDistance := 0, totalTime := 0, totalCost := 0 }
  else
    match locations.find? (fun l => l.isBase) with
    | none => .error "Base location not found"
    | some baseLocation =>
        let deliveryLocations := locations.filter (fun l => !l.isBase)
        let optimizedOrder := nearestNeighborTSP baseLocation deliveryLocations distanceMatrix
        let t := calculateRouteTotals optimizedOrder distanceMatrix
        .ok { order := optimizedOrder
              totalDistance := t.1, totalTime := t.2.1, totalCost := t.2.2 }

/-- `TSPSolver.calculateRouteCost`: sum of `calculateCost` over
consecutive pairs (in `WithTop ℚ`, an unavailable leg makes the sum
`⊤`, matching `Infinity` absorption in JS addition). -/
def calculateRouteCost (route : List String) (matrix : DistanceMatrix) : WithTop ℚ :=
  (route.zip route.tail).foldl (fun acc p => acc + calculateCost p.1 p.2 matrix) 0

/-- `TSPSolver.swap2Opt`: `slice(i, j+1).reverse()` spliced back over
positions `i..j`.  For `j < i` JavaScript `splice` clamps the negative
delete count to `0` and inserts the empty slice, leaving the route
unchanged. -/
def swap2Opt (route : List String) (i j : Nat) : List String :=
  if i ≤ j then
    route.take i ++ ((route.drop i).take (j + 1 - i)).reverse ++ route.drop (j + 1)
  else route

/-- The `(i, j)` iteration space of one pass of `optimize2Opt` over a
route of length `l`: `i` from `1` while `i < l - 2`, `j` from `i + 1`
while `j < l - 1`, in loop order. -/
def pairsList (l : Nat) : List (Nat × Nat) :=
  (List.range' 1 (l - 3)).flatMap fun i =>
    (List.range' (i + 1) (l - 2 - i)).map fun j => (i, j)

/-- The body of one full pass of `optimize2Opt`: folds the `(i, j)`
iteration space through the state `(bestRoute, bestCost)`, accepting a
candidate `swap2Opt` route exactly when its cost is strictly lower. -/
def runPairs (matrix : DistanceMatrix) :
    List (Nat × Nat) → List String × WithTop ℚ → List String × WithTop ℚ
  | [], st => st
  | (i, j) :: ps, (bestRoute, bestCost) =>
      runPairs matrix ps
        (if calculateRouteCost (swap2Opt bestRoute i j) matrix < bestCost
         then (swap2Opt bestRoute i j, calculateRouteCost (swap2Opt bestRoute i j) matrix)
         else (bestRoute, bestCost))

/-! ## Greedy selection: characterisation of the inner scan -/

/-- Cost from the current stop to the `k`-th remaining candidate. -/
def candCost (currentId : String) (matrix : DistanceMatrix)
    (l : List Location) (k : Nat) : WithTop ℚ :=
  calculateCost currentId (l.getD k dummyLocation).id matrix

lemma candCost_zero (currentId : String) (matrix : DistanceMatrix)
    (loc : Location) (rest : List Location) :
    candCost currentId matrix (loc :: rest) 0 =
      calculateCost currentId loc.id matrix := by
  simp [candCost]

lemma candCost_succ (currentId : String) (matrix : DistanceMatrix)
    (loc : Location) (rest : List Location) (k : Nat) :
    candCost currentId matrix (loc :: rest) (k + 1) =
      candCost currentId matrix rest k := by
  simp [candCost]

/-- Full characterisation of the scan: either no candidate beat the
incoming bound `bc` and the state is unchanged, or the scan returns the
first-encountered index attaining the minimum candidate cost, which is
strictly below `bc`. -/
lemma scanNearest_spec (currentId : String) (matrix : DistanceMatrix) :
    ∀ (l : List Location) (i0 bi : Nat) (bc : WithTop ℚ),
      (scanNearest currentId matrix l i0 (bi, bc) = (bi, bc) ∧
        ∀ k, k < l.length → bc ≤ candCost currentId matrix l k) ∨
      (∃ k, k < l.length ∧
        scanNearest currentId matrix l i0 (bi, bc) =
          (i0 + k, candCost currentId matrix l k) ∧
        candCost currentId matrix l k < bc ∧
        (∀ m, m < l.length → candCost currentId matrix l k ≤ candCost currentId matrix l m) ∧
        (∀ m, m < k → candCost currentId matrix l k < candCost currentId matrix l m))
  | [], _, _, _ => Or.inl ⟨rfl, fun k hk => absurd hk (by simp)⟩
  | loc :: rest, i0, bi, bc => by
      simp only [scanNearest]
      by_cases h : calculateCost currentId loc.id matrix < bc
      · rw [if_pos h]
        rcases scanNearest_spec currentId matrix rest (i0 + 1) i0
            (calculateCost currentId loc.id matrix) with
          ⟨heq, hall⟩ | ⟨k, hk, heq, hlt, hmin, hstrict⟩
        · refine Or.inr ⟨0, by simp, ?_, ?_, ?_, ?_⟩
          · rw [heq, candCost_zero, Nat.add_zero]
          · rw [candCost_zero]
            exact h
          · intro m _hm
            match m with
            | 0 => exact le_refl _
            | m + 1 =>
                rw [candCost_zero, candCost_succ]
                exact hall m (by simpa using _hm)
          · intro m hm
            exact absurd hm (Nat.not_lt_zero m)
        · refine Or.inr ⟨k + 1, by simpa using hk, ?_, ?_, ?_, ?_⟩
          · rw [heq, candCost_succ]
            congr 1
            omega
          · rw [candCost_succ]
            exact lt_trans hlt h
          · intro m _hm
            match m with
            | 0 =>
                rw [candCost_succ, candCost_zero]
                exact le_of_lt hlt
            | m + 1 =>
                rw [candCost_succ, candCost_succ]
                exact hmin m (by simpa using _hm)
          · intro m hm
            match m with
            | 0 =>
                rw [candCost_succ, candCost_zero]
                exact hlt
            | m + 1 =>
                rw [candCost_succ, candCost_succ]
                exact hstrict m (by omega)
      · rw [if_neg h]
        rcases scanNearest_spec currentId matrix rest (i0 + 1) bi bc with
          ⟨heq, hall⟩ | ⟨k, hk, heq, hlt, hmin, hstrict⟩
        · refine Or.inl ⟨heq, ?_⟩
          intro m _hm
          match m with
          | 0 =>
              rw [candCost_zero]
              exact not_lt.mp h
          | m + 1 =>
              rw [candCost_succ]
              exact hall m (by simpa using _hm)
        · refine Or.inr ⟨k + 1, by simpa using hk, ?_, ?_, ?_, ?_⟩
          · rw [heq, candCost_succ]
            congr 1
            omega
          · rw [candCost_succ]
            exact hlt
          · intro m _hm
            match m with
            | 0 =>
                rw [candCost_succ, candCost_zero]
                exact le_of_lt (lt_of_lt_of_le hlt (not_lt.mp h))
            | m + 1 =>
                rw [candCost_succ, candCost_succ]
                exact hmin m (by simpa using _hm)
          · intro m hm
            match m with
            | 0 =>
                rw [candCost_succ, candCost_zero]
                exact lt_of_lt_of_le hlt (not_lt.mp h)
            | m + 1 =>
                rw [candCost_succ, candCost_succ]
                exact hstrict m (by omega)

/-- The selected index is in range, attains the minimum candidate
cost, and is the first index to do so (earlier candidates are strictly
more expensive; with an all-infinite neighborhood this forces index 0,
the first-encountered candidate). -/
lemma findNearestIdx_spec (currentId : String) (matrix : DistanceMatrix)
    (unvisited : List Location) (h : unvisited ≠ []) :
    findNearestIdx currentId unvisited matrix < unvisited.length ∧
    (∀ j, j < unvisited.length →
      candCost currentId matrix unvisited (findNearestIdx currentId unvisited matrix) ≤
        candCost currentId matrix unvisited j) ∧
    (∀ j, j < findNearestIdx currentId unvisited matrix →
      candCost currentId matrix unvisited (findNearestIdx currentId unvisited matrix) <
        candCost currentId matrix unvisited j) := by
  unfold findNearestIdx
  rcases scanNearest_spec currentId matrix unvisited 0 0 ⊤ with
    ⟨heq, hall⟩ | ⟨k, hk, heq, _hlt, hmin, hstrict⟩
  · rw [heq]
    have hpos : 0 < unvisited.length := List.length_pos.mpr h
    refine ⟨hpos, ?_, ?_⟩
    · intro j hj
      have h0 : candCost currentId matrix unvisited 0 = ⊤ :=
        top_le_iff.mp (hall 0 hpos)
      have hjtop : candCost currentId matrix unvisited j = ⊤ :=
        top_le_iff.mp (hall j hj)
      rw [h0, hjtop]
    · intro j hj
      exact absurd hj (Nat.not_lt_zero j)
  · rw [heq]
    simpa using ⟨hk, hmin, hstrict⟩

/-- The selected index is always in range for a non-empty candidate
list. -/
lemma findNearestIdx_lt (currentId : String) (matrix : DistanceMatrix)
    (unvisited : List Location) (h : unvisited ≠ []) :
    findNearestIdx currentId unvisited matrix < unvisited.length :=
  (findNearestIdx_spec currentId matrix unvisited h).1

/-- Removing position `i` and re-consing the element there is a
permutation. -/
lemma perm_getD_cons_eraseIdx {α : Type} (d : α) :
    ∀ (l : List α) (i : Nat), i < l.length →
      l.Perm (l.getD i d :: l.eraseIdx i)
  | a :: t, 0, _ => by simp
  | a :: t, i + 1, h => by
      simp only [List.getD_cons_succ, List.eraseIdx_cons_succ]
      have hrec := perm_getD_cons_eraseIdx d t i (by simpa using h)
      exact (hrec.cons a).trans (List.Perm.swap _ _ _)

/-- With fuel at least the number of remaining stops, the greedy loop
emits exactly the ids of the remaining stops, in some order. -/
lemma nnLoop_perm (matrix : DistanceMatrix) :
    ∀ (fuel : Nat) (currentId : String) (l : List Location),
      l.length ≤ fuel →
      (nnLoop matrix fuel currentId l).Perm (l.map Location.id)
  | 0, _, l, hf => by
      have hl : l = [] := List.length_eq_zero.mp (Nat.le_zero.mp hf)
      subst hl
      simp [nnLoop]
  | _ + 1, _, [], _ => by simp [nnLoop]
  | fuel + 1, cur, loc :: rest, hf => by
      simp only [nnLoop]
      have hne : (loc :: rest) ≠ ([] : List Location) := by simp
      have hidx := findNearestIdx_lt cur matrix (loc :: rest) hne
      have hlen : ((loc :: rest).eraseIdx
          (findNearestIdx cur (loc :: rest) matrix)).length ≤ fuel := by
        have := List.length_eraseIdx_add_one hidx
        simp only [List.length_cons] at hf this ⊢
        omega
      have hrec := nnLoop_perm matrix fuel
        ((loc :: rest).getD (findNearestIdx cur (loc :: rest) matrix) dummyLocation).id
        ((loc :: rest).eraseIdx (findNearestIdx cur (loc :: rest) matrix)) hlen
      have hperm1 := perm_getD_cons_eraseIdx dummyLocation (loc :: rest)
        (findNearestIdx cur (loc :: rest) matrix) hidx
      refine (hrec.cons _).trans ?_
      rw [← List.map_cons]
      exact (hperm1.map Location.id).symm

/-! ## Auxiliary lemmas for the termination of `optimize2Opt` -/

/-- `swap2Opt` only rearranges: its result is a permutation of the
input route. -/
lemma swap2Opt_perm (route : List String) (i j : Nat) :
    (swap2Opt route i j).Perm route := by
  unfold swap2Opt
  split
  next hij =>
    have h2 : (route.drop i).drop (j + 1 - i) = route.drop (j + 1) := by
      rw [List.drop_drop]
      congr 1
      omega
    have hsplit : route = route.take i ++
        ((route.drop i).take (j + 1 - i) ++ route.drop (j + 1)) := by
      conv_lhs => rw [← List.take_append_drop i route,
        ← List.take_append_drop (j + 1 - i) (route.drop i), h2]
    rw [List.append_assoc]
    conv_rhs => rw [hsplit]
    exact List.Perm.append_left _ (List.Perm.append_right _ (List.reverse_perm _))
  next hij => exact List.Perm.refl _

/-- The carried `bestCost` never increases along a pass. -/
lemma runPairs_snd_le (matrix : DistanceMatrix) :
    ∀ (ps : List (Nat × Nat)) (b : List String) (c : WithTop ℚ),
      (runPairs matrix ps (b, c)).2 ≤ c
  | [], _, c => le_refl c
  | (i, j) :: ps, b, c => by
      simp only [runPairs]
      split
      next h => exact le_of_lt (lt_of_le_of_lt (runPairs_snd_le matrix ps _ _) h)
      next h => exact runPairs_snd_le matrix ps b c

/-- A pass either accepts no move (state unchanged) or ends in a state
whose route is a permutation of the starting route and whose carried
cost is the actual cost of the carried route. -/
lemma runPairs_eq_or (matrix : DistanceMatrix) :
    ∀ (ps : List (Nat × Nat)) (b : List String) (c : WithTop ℚ),
      runPairs matrix ps (b, c) = (b, c) ∨
      ((runPairs matrix ps (b, c)).1.Perm b ∧
        (runPairs matrix ps (b, c)).2 =
          calculateRouteCost (runPairs matrix ps (b, c)).1 matrix)
  | [], _, _ => Or.inl rfl
  | (i, j) :: ps, b, c => by
      simp only [runPairs]
      split
      next h =>
        rcases runPairs_eq_or matrix ps (swap2Opt b i j)
            (calculateRouteCost (swap2Opt b i j) matrix) with heq | ⟨hp, hc⟩
        · rw [heq]
          exact Or.inr ⟨swap2Opt_perm b i j, rfl⟩
        · exact Or.inr ⟨hp.trans (swap2Opt_perm b i j), hc⟩
      next _h => exact runPairs_eq_or matrix ps b c

/-- If a pass strictly lowered the carried cost, its resulting route is
a permutation of the starting one and the carried cost is its cost. -/
lemma runPairs_improve (matrix : DistanceMatrix) (ps : List (Nat × Nat))
    (b : List String) (c : WithTop ℚ)
    (h : (runPairs matrix ps (b, c)).2 < c) :
    (runPairs matrix ps (b, c)).1.Perm b ∧
      (runPairs matrix ps (b, c)).2 =
        calculateRouteCost (runPairs matrix ps (b, c)).1 matrix := by
  rcases runPairs_eq_or matrix ps b c with heq | hgood
  · rw [heq] at h
    exact absurd h (lt_irrefl c)
  · exact hgood

/-- A pass that does not strictly lower the carried cost accepted no
move at all and leaves the state unchanged. -/
lemma runPairs_no_improve (matrix : DistanceMatrix) :
    ∀ (ps : List (Nat × Nat)) (b : List String) (c : WithTop ℚ),
      ¬ (runPairs matrix ps (b, c)).2 < c → runPairs matrix ps (b, c) = (b, c)
  | [], _, _, _ => rfl
  | (i, j) :: ps, b, c, hn => by
      simp only [runPairs] at hn ⊢
      by_cases h : calculateRouteCost (swap2Opt b i j) matrix < c
      · rw [if_pos h] at hn
        exact absurd (lt_of_le_of_lt (runPairs_snd_le matrix ps _ _) h) hn
      · rw [if_neg h] at hn ⊢
        exact runPairs_no_improve matrix ps b c hn

/-- Strict counting: if `p` implies `q` on `l` and some member of `l`
satisfies `q` but not `p`, then `countP p < countP q`. -/
lemma countP_lt_of_mem {α : Type} (p q : α → Bool) :
    ∀ (l : List α), (∀ x ∈ l, p x = true → q x = true) →
      ∀ a ∈ l, q a = true → p a = false → l.countP p < l.countP q
  | [], _, a, ha, _, _ => absurd ha (List.not_mem_nil a)
  | x :: l, himp, a, ha, hq, hp => by
      rw [List.countP_cons, List.countP_cons]
      rcases List.mem_cons.mp ha with rfl | hmem
      · rw [hp, hq]
        have hle : l.countP p ≤ l.countP q :=
          List.countP_mono_left fun x hx => himp x (List.mem_cons_of_mem _ hx)
        have e1 : (if (false = true) then 1 else 0) = 0 := rfl
        have e2 : (if (true = true) then 1 else 0) = 1 := rfl
        rw [e1, e2]
        omega
      · have hlt := countP_lt_of_mem p q l
          (fun x hx => himp x (List.mem_cons_of_mem _ hx)) a hmem hq hp
        have hx : (if p x then 1 else 0) ≤ (if q x then 1 else 0) := by
          by_cases hpx : p x = true
          · rw [if_pos hpx, if_pos (himp x (List.mem_cons_self x l) hpx)]
          · simp [hpx]
        exact Nat.add_lt_add_of_lt_of_le hlt hx

/-- The termination measure of the 2-opt outer loop: the number of
rearrangements of the current route strictly cheaper than the carried
best cost.  It strictly decreases whenever a pass improves. -/
lemma loopMeasure_lt (matrix : DistanceMatrix) (r b : List String) (c : WithTop ℚ)
    (hperm : r.Perm b) (hr : calculateRouteCost r matrix < c) :
    (r.permutations.countP fun l =>
        decide (calculateRouteCost l matrix < calculateRouteCost r matrix)) <
    (b.permutations.countP fun l => decide (calculateRouteCost l matrix < c)) := by
  rw [List.Perm.countP_eq _ hperm.permutations]
  apply countP_lt_of_mem _ _ _ ?imp r (List.mem_permutations.mpr hperm) ?hq ?hp
  case imp =>
    intro x _ hx
    simp only [decide_eq_true_eq] at hx ⊢
    exact lt_trans hx hr
  case hq => simpa using hr
  case hp => simp

/-- The `while (improved)` loop of `optimize2Opt`: one full pass over
the `(i, j)` iteration space (computed from the original route length,
which every intermediate route keeps), recursing while the pass
accepted at least one move, i.e. while the carried cost strictly
dropped. -/
def loop2Opt (matrix : DistanceMatrix) (origLen : Nat) (bestRoute : List String)
    (bestCost : WithTop ℚ) : List String :=
  if _h : (runPairs matrix (pairsList origLen) (bestRoute, bestCost)).2 < bestCost then
    loop2Opt matrix origLen
      (runPairs matrix (pairsList origLen) (bestRoute, bestCost)).1
      (runPairs matrix (pairsList origLen) (bestRoute, bestCost)).2
  else bestRoute
termination_by bestRoute.permutations.countP fun l =>
  decide (calculateRouteCost l matrix < bestCost)
decreasing_by
  obtain ⟨hperm, hcost⟩ :=
    runPairs_improve matrix (pairsList origLen) bestRoute bestCost _h
  simp only [hcost] at _h ⊢
  exact loopMeasure_lt matrix _ bestRoute bestCost hperm _h

/-- `TSPSolver.optimize2Opt`: `bestRoute = [...route]`,
`bestCost = calculateRouteCost(bestRoute, matrix)`, then the pass loop. -/
def optimize2Opt (route : List String) (matrix : DistanceMatrix) : List String :=
  loop2Opt matrix route.length route (calculateRouteCost route matrix)

/-! ## Structural invariants of a 2-opt pass -/

/-- A 2-opt reversal at `i ≥ 1` keeps the first element. -/
lemma swap2Opt_head (route : List String) (i j : Nat) (hi : 1 ≤ i) :
    (swap2Opt route i j).head? = route.head? := by
  unfold swap2Opt
  split
  · cases route with
    | nil => simp
    | cons a t =>
        obtain ⟨i', rfl⟩ : ∃ i', i = i' + 1 := ⟨i - 1, by omega⟩
        simp [List.take_succ_cons, List.cons_append]
  · rfl

/-- A 2-opt reversal ending strictly before the last position keeps
the last element. -/
lemma swap2Opt_getLast (route : List String) (i j : Nat)
    (hj : j + 1 < route.length) :
    (swap2Opt route i j).getLast? = route.getLast? := by
  unfold swap2Opt
  split
  · have hd : route.drop (j + 1) ≠ [] := by
      have hlen : 0 < (route.drop (j + 1)).length := by
        rw [List.length_drop]
        omega
      exact List.ne_nil_of_length_pos hlen
    rw [List.append_assoc, List.getLast?_append_of_ne_nil _ ?h1,
      List.getLast?_append_of_ne_nil _ hd]
    case h1 => simp [hd]
    conv_rhs => rw [← List.take_append_drop (j + 1) route,
      List.getLast?_append_of_ne_nil _ hd]
  · rfl

/-- Every `(i, j)` in the iteration space of a pass over a route of
length `L` satisfies `1 ≤ i`, `i + 1 ≤ j` and `j + 1 < L`. -/
lemma pairsList_mem (L : Nat) (p : Nat × Nat) (hp : p ∈ pairsList L) :
    1 ≤ p.1 ∧ p.1 + 1 ≤ p.2 ∧ p.2 + 1 < L := by
  obtain ⟨i, hi, hj⟩ := List.mem_flatMap.mp hp
  obtain ⟨j, hjm, rfl⟩ := List.mem_map.mp hj
  rw [List.mem_range'_1] at hi hjm
  constructor
  · exact hi.1
  constructor
  · exact hjm.1
  · omega

/-- Through a pass whose pairs respect the interior bounds of the
current route, the route stays a permutation with unchanged first and
last elements. -/
lemma runPairs_inv (matrix : DistanceMatrix) :
    ∀ (ps : List (Nat × Nat)) (b : List String) (c : WithTop ℚ),
      (∀ p ∈ ps, 1 ≤ p.1 ∧ p.1 + 1 ≤ p.2 ∧ p.2 + 1 < b.length) →
      (runPairs matrix ps (b, c)).1.Perm b ∧
        (runPairs matrix ps (b, c)).1.head? = b.head? ∧
        (runPairs matrix ps (b, c)).1.getLast? = b.getLast?
  | [], b, _, _ => ⟨List.Perm.refl b, rfl, rfl⟩
  | (i, j) :: ps, b, c, hps => by
      simp only [runPairs]
      split
      next h =>
        obtain ⟨h1, h2, h3⟩ := hps (i, j) (List.mem_cons_self _ _)
        have hlen : (swap2Opt b i j).length = b.length :=
          (swap2Opt_perm b i j).length_eq
        have hrec := runPairs_inv matrix ps (swap2Opt b i j)
          (calculateRouteCost (swap2Opt b i j) matrix)
          (fun p hp => by rw [hlen]; exact hps p (List.mem_cons_of_mem _ hp))
        exact ⟨hrec.1.trans (swap2Opt_perm b i j),
               hrec.2.1.trans (swap2Opt_head b i j h1),
               hrec.2.2.trans (swap2Opt_getLast b i j h3)⟩
      next _h =>
        exact runPairs_inv matrix ps b c
          (fun p hp => hps p (List.mem_cons_of_mem _ hp))

/-- One full pass of `optimize2Opt` viewed as a route transformer
(the route produced by scanning the whole `(i, j)` space once starting
from `route`). -/
def passRoute (matrix : DistanceMatrix) (route : List String) : List String :=
  (runPairs matrix (pairsList route.length)
    (route, calculateRouteCost route matrix)).1

/-- Master invariant of the 2-opt pass loop: starting from a state
whose carried cost is the cost of the carried route of length
`origLen`, the loop result (1) costs no more than the start, (2) is a
permutation of the start, (3) keeps first and (4) last elements, (5)
is a fixpoint (one more pass would accept no move), and (6) is reached
by finitely many single passes. -/
lemma loop2Opt_spec (matrix : DistanceMatrix) (origLen : Nat)
    (bestRoute : List String) (bestCost : WithTop ℚ)
    (hc : bestCost = calculateRouteCost bestRoute matrix)
    (hlen : bestRoute.length = origLen) :
    calculateRouteCost (loop2Opt matrix origLen bestRoute bestCost) matrix ≤ bestCost ∧
    (loop2Opt matrix origLen bestRoute bestCost).Perm bestRoute ∧
    (loop2Opt matrix origLen bestRoute bestCost).head? = bestRoute.head? ∧
    (loop2Opt matrix origLen bestRoute bestCost).getLast? = bestRoute.getLast? ∧
    ¬ ((runPairs matrix (pairsList origLen)
        (loop2Opt matrix origLen bestRoute bestCost,
         calculateRouteCost (loop2Opt matrix origLen bestRoute bestCost) matrix)).2 <
        calculateRouteCost (loop2Opt matrix origLen bestRoute bestCost) matrix) ∧
    ∃ n, loop2Opt matrix origLen bestRoute bestCost = (passRoute matrix)^[n] bestRoute := by
  revert hc hlen
  induction bestRoute, bestCost using loop2Opt.induct matrix origLen with
  | case1 bestRoute bestCost h ih =>
      intro hc hlen
      obtain ⟨hperm, hcost⟩ :=
        runPairs_improve matrix (pairsList origLen) bestRoute bestCost h
      have hlen' : (runPairs matrix (pairsList origLen) (bestRoute, bestCost)).1.length
          = origLen := hperm.length_eq.trans hlen
      obtain ⟨ih1, ih2, ih3, ih4, ih5, n, ih6⟩ := ih hcost hlen'
      have hinv := runPairs_inv matrix (pairsList origLen) bestRoute bestCost
        (fun p hp => by
          obtain ⟨a, b, c⟩ := pairsList_mem origLen p hp
          exact ⟨a, b, by rw [hlen]; exact c⟩)
      have hstep : loop2Opt matrix origLen bestRoute bestCost =
          loop2Opt matrix origLen
            (runPairs matrix (pairsList origLen) (bestRoute, bestCost)).1
            (runPairs matrix (pairsList origLen) (bestRoute, bestCost)).2 := by
        rw [loop2Opt.eq_def, dif_pos h]
      rw [hstep]
      refine ⟨le_of_lt (lt_of_le_of_lt ih1 h), ih2.trans hperm,
        ih3.trans hinv.2.1, ih4.trans hinv.2.2, ih5, n + 1, ?_⟩
      have hpass : passRoute matrix bestRoute =
          (runPairs matrix (pairsList origLen) (bestRoute, bestCost)).1 := by
        unfold passRoute
        rw [hlen, ← hc]
      rw [Function.iterate_succ_apply, hpass]
      exact ih6
  | case2 bestRoute bestCost h =>
      intro hc hlen
      have hstop : loop2Opt matrix origLen bestRoute bestCost = bestRoute := by
        rw [loop2Opt.eq_def, dif_neg h]
      rw [hstop]
      refine ⟨le_of_eq hc.symm, List.Perm.refl _, rfl, rfl, ?_, 0, rfl⟩
      rw [← hc]
      exact h

/-! ## Claim theorems about `optimize2Opt` -/

/-- **C2**: for every tour and every cost matrix, the total tour cost
of the tour returned by `optimize2Opt` is at most the total tour cost
of the input tour, and `optimize2Opt` applied to its own output
returns that output unchanged (idempotence at convergence). -/
theorem optimize2Opt_cost_nonincreasing_and_idempotent
    (route : List String) (matrix : DistanceMatrix) :
    calculateRouteCost (optimize2Opt route matrix) matrix ≤
      calculateRouteCost route matrix ∧
    optimize2Opt (optimize2Opt route matrix) matrix = optimize2Opt route matrix := by
  obtain ⟨h1, h2, -, -, h5, -⟩ := loop2Opt_spec matrix route.length route
    (calculateRouteCost route matrix) rfl rfl
  refine ⟨h1, ?_⟩
  have hlen2 : (optimize2Opt route matrix).length = route.length :=
    List.Perm.length_eq h2
  show loop2Opt matrix (optimize2Opt route matrix).length (optimize2Opt route matrix)
      (calculateRouteCost (optimize2Opt route matrix) matrix) = optimize2Opt route matrix
  rw [hlen2, loop2Opt.eq_def]
  exact dif_neg h5

/-- **C6**: for every input tour and matrix, `optimize2Opt` keeps the
element at position 0 and the element at the last position, and its
output is a rearrangement (same multiset) of the input tour. -/
theorem optimize2Opt_preserves_endpoints_and_multiset
    (route : List String) (matrix : DistanceMatrix) :
    (optimize2Opt route matrix).Perm route ∧
    (optimize2Opt route matrix).head? = route.head? ∧
    (optimize2Opt route matrix).getLast? = route.getLast? := by
  obtain ⟨-, h2, h3, h4, -, -⟩ := loop2Opt_spec matrix route.length route
    (calculateRouteCost route matrix) rfl rfl
  exact ⟨h2, h3, h4⟩

/-- **C8**: the outer improvement loop of `optimize2Opt` always
terminates: for every finite route and every matrix (including ones
with missing or non-OK entries) there is a finite number `n` of full
passes after which the result is reached and a further pass changes
nothing. -/
theorem optimize2Opt_terminates
    (route : List String) (matrix : DistanceMatrix) :
    ∃ n, optimize2Opt route matrix = (passRoute matrix)^[n] route ∧
      passRoute matrix ((passRoute matrix)^[n] route) =
        (passRoute matrix)^[n] route := by
  obtain ⟨-, h2, -, -, h5, n, h6⟩ := loop2Opt_spec matrix route.length route
    (calculateRouteCost route matrix) rfl rfl
  refine ⟨n, h6, ?_⟩
  rw [← h6]
  unfold passRoute
  rw [List.Perm.length_eq h2]
  rw [runPairs_no_improve matrix (pairsList route.length) _ _ h5]

/-! ## Concrete fixtures used by witnesses and counterexamples -/

/-- A base stop. -/
def stopA : Location := ⟨"A", "addrA", none, none, true⟩

/-- A delivery stop. -/
def stopB : Location := ⟨"B", "addrB", none, none, false⟩

/-- Another delivery stop. -/
def stopC : Location := ⟨"C", "addrC", none, none, false⟩

/-- The everywhere-undefined matrix (every lookup misses). -/
def emptyMatrix : DistanceMatrix := fun _ _ => none

/-- A matrix with one OK entry from `A` to `B`. -/
def oneEntryElement : DistanceMatrixElement :=
  ⟨⟨"1 km", 1000⟩, ⟨"1 min", 60⟩, "OK"⟩

/-- Matrix holding only `oneEntryElement` at `(A, B)`. -/
def oneEntryMatrix : DistanceMatrix := fun f t =>
  if f = "A" ∧ t = "B" then some oneEntryElement else none

/-! ## Claim theorems about the Cost Model and the orchestrator -/

/-- **C4**: `calculateCost` is `⊤` (positive infinity) exactly when the
directed entry is absent or not OK, and otherwise returns
`0.3 * (meters/1000) + 0.7 * (seconds/60)`; an OK entry with zero
distance and duration costs `0`.  (Purity holds by construction: the
embedding is a function of its arguments only.) -/
theorem calculateCost_spec (fromId toId : String) (matrix : DistanceMatrix) :
    (calculateCost fromId toId matrix = ⊤ ↔
      matrix fromId toId = none ∨
        ∃ e, matrix fromId toId = some e ∧ e.status ≠ "OK") ∧
    (∀ e, matrix fromId toId = some e → e.status = "OK" →
      calculateCost fromId toId matrix =
        ((0.3 * (e.distance.value / 1000) + 0.7 * (e.duration.value / 60) : ℚ) :
          WithTop ℚ)) ∧
    (∀ e, matrix fromId toId = some e → e.status = "OK" →
      e.distance.value = 0 → e.duration.value = 0 →
      calculateCost fromId toId matrix = ((0 : ℚ) : WithTop ℚ)) := by
  obtain hm | ⟨e, hm⟩ : matrix fromId toId = none ∨
      ∃ e, matrix fromId toId = some e := by
    cases matrix fromId toId
    · exact Or.inl rfl
    · exact Or.inr ⟨_, rfl⟩
  · refine ⟨?_, ?_, ?_⟩ <;> simp [calculateCost, hm]
  · by_cases hs : e.status = "OK"
    · have hcalc : calculateCost fromId toId matrix =
          ((0.3 * (e.distance.value / 1000) + 0.7 * (e.duration.value / 60) : ℚ) :
            WithTop ℚ) := by
        simp [calculateCost, hm, hs, DISTANCE_WEIGHT, TIME_WEIGHT]
      refine ⟨?_, ?_, ?_⟩
      · rw [hcalc]
        constructor
        · intro htop
          exact absurd htop WithTop.coe_ne_top
        · rintro (hnone | ⟨e', he', hs'⟩)
          · rw [hm] at hnone
            cases hnone
          · rw [hm] at he'
            cases he'
            exact absurd hs hs'
      · intro e' he' _
        rw [hm] at he'
        cases he'
        exact hcalc
      · intro e' he' _ hd ht
        rw [hm] at he'
        cases he'
        rw [hcalc, hd, ht]
        norm_num
    · refine ⟨?_, ?_, ?_⟩
      · simp only [calculateCost, hm]
        rw [if_pos hs]
        simp [hm, hs]
      · intro e' he' hs'
        rw [hm] at he'
        cases he'
        exact absurd hs' hs
      · intro e' he' hs' _ _
        rw [hm] at he'
        cases he'
        exact absurd hs' hs

/-- Witness for C4 at the concrete one-entry matrix. -/
theorem calculateCost_spec_witness :
    oneEntryMatrix "A" "B" = some oneEntryElement ∧
    oneEntryElement.status = "OK" ∧
    calculateCost "A" "B" oneEntryMatrix =
      ((0.3 * (oneEntryElement.distance.value / 1000)
        + 0.7 * (oneEntryElement.duration.value / 60) : ℚ) : WithTop ℚ) :=
  ⟨rfl, rfl, (calculateCost_spec "A" "B" oneEntryMatrix).2.1 oneEntryElement rfl rfl⟩

/-- **C9**: for at most two stops, `optimizeRoute` returns the input
ids in input order with all totals exactly zero. -/
theorem optimizeRoute_degenerate (locations : List Location)
    (matrix : DistanceMatrix) (h : locations.length ≤ 2) :
    optimizeRoute locations matrix =
      .ok ⟨locations.map Location.id, 0, 0, 0⟩ := by
  unfold optimizeRoute
  rw [if_pos h]

/-- Witness for C9 on a concrete two-stop input. -/
theorem optimizeRoute_degenerate_witness :
    [stopA, stopB].length ≤ 2 ∧
    optimizeRoute [stopA, stopB] oneEntryMatrix = .ok ⟨["A", "B"], 0, 0, 0⟩ :=
  ⟨by decide, optimizeRoute_degenerate [stopA, stopB] oneEntryMatrix (by decide)⟩

/-- **C3 counterexample**: a one-stop input with no base: the claim
says `optimizeRoute` raises `MissingBaseError` whenever no stop is
flagged base, but the code returns a degenerate ok-result here. -/
theorem optimizeRoute_no_base_no_error_cex :
    (∀ l ∈ [stopB], l.isBase = false) ∧
    optimizeRoute [stopB] emptyMatrix = .ok ⟨["B"], 0, 0, 0⟩ :=
  ⟨by decide, rfl⟩

/-- **C3 amended**: `optimizeRoute` fails exactly when there are more
than two stops and none is flagged base (for `≤ 2` stops the
degenerate result is returned even without a base), and the only error
it ever produces is the missing-base error. -/
theorem optimizeRoute_error_iff (locations : List Location)
    (matrix : DistanceMatrix) :
    ((∃ e, optimizeRoute locations matrix = .error e) ↔
      2 < locations.length ∧ ∀ l ∈ locations, l.isBase = false) ∧
    (∀ e, optimizeRoute locations matrix = .error e →
      e = "Base location not found") := by
  unfold optimizeRoute
  by_cases hlen : locations.length ≤ 2
  · rw [if_pos hlen]
    refine ⟨⟨fun ⟨e, he⟩ => absurd he (by simp),
      fun ⟨h2, _⟩ => absurd h2 (by omega)⟩, fun e he => absurd he (by simp)⟩
  · rw [if_neg hlen]
    cases hfind : locations.find? (fun l => l.isBase) with
    | none =>
        refine ⟨⟨fun _ => ⟨by omega, ?_⟩, fun _ => ⟨_, rfl⟩⟩, fun e he => ?_⟩
        · intro l hl
          have := List.find?_eq_none.mp hfind l hl
          simpa using this
        · simpa using he.symm
    | some b =>
        refine ⟨⟨fun ⟨e, he⟩ => absurd he (by simp), fun ⟨_, hall⟩ => ?_⟩,
          fun e he => absurd he (by simp)⟩
        have hb := List.find?_some hfind
        have hmem := List.mem_of_find?_eq_some hfind
        rw [hall b hmem] at hb
        exact absurd hb (by simp)

/-- Witness for the amended C3: three stops, none a base, do fail. -/
theorem optimizeRoute_error_iff_witness :
    ∃ e, optimizeRoute [stopB, stopC, stopB] emptyMatrix = .error e :=
  ((optimizeRoute_error_iff [stopB, stopC, stopB] emptyMatrix).1).mpr
    ⟨by decide, by decide⟩

/-- **C5**: at every greedy step on a non-empty candidate list, the
selected index is in range, attains the minimum cost from the current
stop, every earlier candidate is strictly more expensive (so ties and
all-infinite neighborhoods select the first-encountered candidate),
and construction always closes the tour with the base id. -/
theorem nearestNeighbor_greedy_selection (currentId : String)
    (matrix : DistanceMatrix) (unvisited : List Location)
    (base : Location) (deliveries : List Location)
    (h : unvisited ≠ []) :
    (findNearestIdx currentId unvisited matrix < unvisited.length ∧
      (∀ j, j < unvisited.length →
        candCost currentId matrix unvisited
            (findNearestIdx currentId unvisited matrix) ≤
          candCost currentId matrix unvisited j) ∧
      (∀ j, j < findNearestIdx currentId unvisited matrix →
        candCost currentId matrix unvisited
            (findNearestIdx currentId unvisited matrix) <
          candCost currentId matrix unvisited j)) ∧
    (nearestNeighborTSP base deliveries matrix).getLast? = some base.id := by
  refine ⟨findNearestIdx_spec currentId matrix unvisited h, ?_⟩
  unfold nearestNeighborTSP
  rw [← List.cons_append, List.getLast?_concat]

/-- Witness for C5 on a concrete candidate list. -/
theorem nearestNeighbor_greedy_selection_witness :
    ([stopB, stopC] ≠ ([] : List Location)) ∧
    ((findNearestIdx "A" [stopB, stopC] emptyMatrix < [stopB, stopC].length ∧
      (∀ j, j < [stopB, stopC].length →
        candCost "A" emptyMatrix [stopB, stopC]
            (findNearestIdx "A" [stopB, stopC] emptyMatrix) ≤
          candCost "A" emptyMatrix [stopB, stopC] j) ∧
      (∀ j, j < findNearestIdx "A" [stopB, stopC] emptyMatrix →
        candCost "A" emptyMatrix [stopB, stopC]
            (findNearestIdx "A" [stopB, stopC] emptyMatrix) <
          candCost "A" emptyMatrix [stopB, stopC] j)) ∧
    (nearestNeighborTSP stopA [stopB, stopC] emptyMatrix).getLast? = some stopA.id) :=
  ⟨by decide, nearestNeighbor_greedy_selection "A" emptyMatrix [stopB, stopC]
    stopA [stopB, stopC] (by decide)⟩

/-! ## The permutation property of the returned tour (C1) -/

/-- Unfolding of `optimizeRoute` in the non-degenerate case with a
found base. -/
lemma optimizeRoute_pos (locations : List Location) (matrix : DistanceMatrix)
    (b : Location) (hlen : ¬ locations.length ≤ 2)
    (hfind : locations.find? (fun l => l.isBase) = some b) :
    optimizeRoute locations matrix = .ok
      ⟨nearestNeighborTSP b (locations.filter fun l => !l.isBase) matrix,
       (calculateRouteTotals
         (nearestNeighborTSP b (locations.filter fun l => !l.isBase) matrix) matrix).1,
       (calculateRouteTotals
         (nearestNeighborTSP b (locations.filter fun l => !l.isBase) matrix) matrix).2.1,
       (calculateRouteTotals
         (nearestNeighborTSP b (locations.filter fun l => !l.isBase) matrix) matrix).2.2⟩ := by
  unfold optimizeRoute
  rw [if_neg hlen, hfind]

/-- Filtered-out bases and kept deliveries partition the stops. -/
lemma length_filter_not_isBase (l : List Location) :
    (l.filter fun x => !x.isBase).length + l.countP (fun x => x.isBase) = l.length := by
  rw [← List.countP_eq_length_filter]
  have h := List.length_eq_countP_add_countP (fun x : Location => x.isBase) l
  have he : (fun a : Location => decide (¬ a.isBase = true)) =
      (fun a : Location => !a.isBase) := by
    funext a
    cases a.isBase <;> rfl
  rw [he] at h
  omega

/-- **C1 counterexample**: a valid input in the claim's sense (flagged
base, one delivery, distinct identifiers) with exactly two stops falls
into the degenerate branch: the returned order is `["A", "B"]`, which
does not end with the base identifier and does not have length
`stops + 1`. -/
theorem optimizeRoute_two_stop_cex :
    (([stopA, stopB].map Location.id).Nodup ∧
      (∃ l ∈ [stopA, stopB], l.isBase = true) ∧
      1 ≤ ([stopA, stopB].filter fun l => !l.isBase).length) ∧
    optimizeRoute [stopA, stopB] emptyMatrix = .ok ⟨["A", "B"], 0, 0, 0⟩ ∧
    ¬ (["A", "B"].getLast? = some stopA.id ∧
       ["A", "B"].length = [stopA, stopB].length + 1) := by
  refine ⟨by decide, rfl, by decide⟩

/-- **C1 amended**: for more than two stops with exactly one flagged
base and pairwise-distinct identifiers, `optimizeRoute` succeeds with
an order that starts and ends with the base id, has length
`stops + 1`, and contains every non-base id exactly once. -/
theorem optimizeRoute_valid_tour (locations : List Location)
    (matrix : DistanceMatrix) (b : Location)
    (hlen : 2 < locations.length)
    (hnodup : (locations.map Location.id).Nodup)
    (hfind : locations.find? (fun l => l.isBase) = some b)
    (hone : locations.countP (fun l => l.isBase) = 1) :
    ∃ res, optimizeRoute locations matrix = .ok res ∧
      res.order.head? = some b.id ∧
      res.order.getLast? = some b.id ∧
      res.order.length = locations.length + 1 ∧
      ∀ l ∈ locations, l.isBase = false → res.order.count l.id = 1 := by
  have hmain := optimizeRoute_pos locations matrix b (by omega) hfind
  refine ⟨_, hmain, ?_, ?_, ?_, ?_⟩
  · rfl
  · unfold nearestNeighborTSP
    rw [← List.cons_append, List.getLast?_concat]
  · show (nearestNeighborTSP b (locations.filter fun l => !l.isBase) matrix).length
        = locations.length + 1
    have hperm := nnLoop_perm matrix (locations.filter fun l => !l.isBase).length
      b.id (locations.filter fun l => !l.isBase) (le_refl _)
    have hinner : (nnLoop matrix (locations.filter fun l => !l.isBase).length b.id
        (locations.filter fun l => !l.isBase)).length
        = (locations.filter fun l => !l.isBase).length := by
      rw [hperm.length_eq, List.length_map]
    have hcount := length_filter_not_isBase locations
    unfold nearestNeighborTSP
    simp only [List.length_cons, List.length_append, hinner, List.length_singleton,
      List.length_nil]
    omega
  · intro l hl hbase
    show (nearestNeighborTSP b (locations.filter fun l => !l.isBase) matrix).count l.id = 1
    have hbmem := List.mem_of_find?_eq_some hfind
    have hbbase := List.find?_some hfind
    have hne : l.id ≠ b.id := by
      intro hid
      have := List.inj_on_of_nodup_map hnodup hl hbmem hid
      rw [this] at hbase
      rw [hbase] at hbbase
      exact absurd hbbase (by simp)
    have hperm := nnLoop_perm matrix (locations.filter fun l => !l.isBase).length
      b.id (locations.filter fun l => !l.isBase) (le_refl _)
    have hsub : ((locations.filter fun l => !l.isBase).map Location.id).Sublist
        (locations.map Location.id) := (List.filter_sublist _).map _
    have hnd : ((locations.filter fun l => !l.isBase).map Location.id).Nodup :=
      hsub.nodup hnodup
    have hmem : l.id ∈ (locations.filter fun l => !l.isBase).map Location.id := by
      refine List.mem_map_of_mem _ ?_
      rw [List.mem_filter]
      exact ⟨hl, by rw [hbase]; rfl⟩
    have hcnt : ((locations.filter fun l => !l.isBase).map Location.id).count l.id = 1 :=
      List.count_eq_one_of_mem hnd hmem
    unfold nearestNeighborTSP
    rw [List.count_cons, List.count_append, (hperm.count_eq l.id), hcnt]
    simp [List.count_singleton, beq_iff_eq, hne, Ne.symm hne]

/-- Witness for the amended C1 on three concrete stops. -/
theorem optimizeRoute_valid_tour_witness :
    (2 < [stopA, stopB, stopC].length ∧
      ([stopA, stopB, stopC].map Location.id).Nodup ∧
      [stopA, stopB, stopC].find? (fun l => l.isBase) = some stopA ∧
      [stopA, stopB, stopC].countP (fun l => l.isBase) = 1) ∧
    (∃ res, optimizeRoute [stopA, stopB, stopC] emptyMatrix = .ok res ∧
      res.order.head? = some stopA.id ∧
      res.order.getLast? = some stopA.id ∧
      res.order.length = [stopA, stopB, stopC].length + 1 ∧
      ∀ l ∈ [stopA, stopB, stopC], l.isBase = false → res.order.count l.id = 1) :=
  ⟨⟨by decide, by decide, by decide, by decide⟩,
    optimizeRoute_valid_tour [stopA, stopB, stopC] emptyMatrix stopA
      (by decide) (by decide) (by decide) (by decide)⟩

/-! ## Per-leg decomposition of the aggregate totals (C7, C10) -/

/-- Distance contribution (km) of a single leg in
`calculateRouteTotals`: zero for an absent or non-OK entry. -/
def legDistanceKm (matrix : DistanceMatrix) (fromId toId : String) : ℚ :=
  match matrix fromId toId with
  | some element =>
      if element.status = "OK" then element.distance.value / 1000 else 0
  | none => 0

/-- Duration contribution (minutes) of a single leg in
`calculateRouteTotals`: zero for an absent or non-OK entry. -/
def legDurationMin (matrix : DistanceMatrix) (fromId toId : String) : ℚ :=
  match matrix fromId toId with
  | some element =>
      if element.status = "OK" then element.duration.value / 60 else 0
  | none => 0

/-- The totals fold equals componentwise sums of per-leg
contributions; the cost component of each leg is the Cost-Model value
with `⊤` truncated to `0`. -/
lemma calculateRouteTotals_fold (matrix : DistanceMatrix) :
    ∀ (ps : List (String × String)) (acc : ℚ × ℚ × ℚ),
      ps.foldl
        (fun acc p =>
          match matrix p.1 p.2 with
          | some element =>
              if element.status = "OK" then
                (acc.1 + element.distance.value / 1000,
                 acc.2.1 + element.duration.value / 60,
                 acc.2.2 + (DISTANCE_WEIGHT * (element.distance.value / 1000)
                             + TIME_WEIGHT * (element.duration.value / 60)))
              else acc
          | none => acc) acc
      = (acc.1 + (ps.map fun p => legDistanceKm matrix p.1 p.2).sum,
         acc.2.1 + (ps.map fun p => legDurationMin matrix p.1 p.2).sum,
         acc.2.2 + (ps.map fun p => (calculateCost p.1 p.2 matrix).untop' 0).sum)
  | [], acc => by simp
  | p :: ps, acc => by
      rw [List.foldl_cons, calculateRouteTotals_fold matrix ps _,
        List.map_cons, List.sum_cons, List.map_cons, List.sum_cons,
        List.map_cons, List.sum_cons]
      cases hm : matrix p.1 p.2 with
      | none =>
          simp only [legDistanceKm, legDurationMin, calculateCost, hm,
            WithTop.untop'_top]
          rw [zero_add, zero_add, zero_add]
      | some e =>
          by_cases hs : e.status = "OK"
          · simp only [legDistanceKm, legDurationMin, calculateCost, hm, hs, if_true]
            rw [if_neg (fun hc : ("OK" : String) ≠ "OK" => hc rfl),
              WithTop.untop'_coe]
            rw [add_assoc, add_assoc, add_assoc]
          · simp only [legDistanceKm, legDurationMin, calculateCost, hm,
              if_neg hs, if_pos hs, WithTop.untop'_top]
            rw [zero_add, zero_add, zero_add]

/-- `calculateRouteTotals` as componentwise sums over consecutive
pairs. -/
lemma calculateRouteTotals_eq (order : List String) (matrix : DistanceMatrix) :
    calculateRouteTotals order matrix =
      (((order.zip order.tail).map fun p => legDistanceKm matrix p.1 p.2).sum,
       ((order.zip order.tail).map fun p => legDurationMin matrix p.1 p.2).sum,
       ((order.zip order.tail).map fun p =>
          (calculateCost p.1 p.2 matrix).untop' 0).sum) := by
  unfold calculateRouteTotals
  rw [calculateRouteTotals_fold]
  rw [zero_add, zero_add, zero_add]

/-- **C7 counterexample**: three stops with an empty matrix.  The
final tour `["A","B","C","A"]` has only unavailable legs, so the sum
of Cost-Model values along it is `⊤`, but the returned `totalCost` is
`0`: `calculateRouteTotals` skips non-OK pairs instead of adding their
infinite cost. -/
theorem optimizeRoute_totalCost_not_full_sum_cex :
    optimizeRoute [stopA, stopB, stopC] emptyMatrix =
      .ok ⟨["A", "B", "C", "A"], 0, 0, 0⟩ ∧
    ¬ ((((0 : ℚ) : WithTop ℚ) =
        calculateRouteCost ["A", "B", "C", "A"] emptyMatrix)) :=
  ⟨rfl, by decide⟩

/-- **C7 amended**: for more than two stops, the returned `totalCost`
is the sum, over consecutive pairs of the final tour, of the
Cost-Model value truncated to `0` on pairs whose entry is absent or
not OK (instead of their infinite search cost). -/
theorem optimizeRoute_totalCost_sum (locations : List Location)
    (matrix : DistanceMatrix) (res : OptimizedRoute)
    (h : optimizeRoute locations matrix = .ok res)
    (hlen : 2 < locations.length) :
    res.totalCost = ((res.order.zip res.order.tail).map
      fun p => (calculateCost p.1 p.2 matrix).untop' 0).sum := by
  obtain ⟨b, hfind⟩ : ∃ b, locations.find? (fun l => l.isBase) = some b := by
    cases hf : locations.find? (fun l => l.isBase) with
    | none =>
        unfold optimizeRoute at h
        rw [if_neg (by omega), hf] at h
        cases h
    | some b => exact ⟨b, rfl⟩
  rw [optimizeRoute_pos locations matrix b (by omega) hfind] at h
  have hres := Except.ok.inj h
  rw [← hres]
  show (calculateRouteTotals
      (nearestNeighborTSP b (locations.filter fun l => !l.isBase) matrix) matrix).2.2 = _
  rw [calculateRouteTotals_eq]

/-- Witness for the amended C7 on a concrete three-stop input. -/
theorem optimizeRoute_totalCost_sum_witness :
    optimizeRoute [stopA, stopB, stopC] emptyMatrix =
      .ok ⟨["A", "B", "C", "A"], 0, 0, 0⟩ ∧
    2 < [stopA, stopB, stopC].length ∧
    (OptimizedRoute.totalCost ⟨["A", "B", "C", "A"], 0, 0, 0⟩ =
      (((["A", "B", "C", "A"] : List String).zip
          (["A", "B", "C", "A"] : List String).tail).map
        fun p => (calculateCost p.1 p.2 emptyMatrix).untop' 0).sum) :=
  ⟨rfl, by decide,
    optimizeRoute_totalCost_sum [stopA, stopB, stopC] emptyMatrix
      ⟨["A", "B", "C", "A"], 0, 0, 0⟩ rfl (by decide)⟩

/-- **C10**: every successful result has totals given by finite
(rational) per-leg sums — exactly the degenerate zeros for at most two
stops, and componentwise sums of per-leg contributions otherwise — and
a leg whose matrix entry is absent or not OK contributes zero to all
three aggregates, rather than the infinite cost used during the
search. -/
theorem optimizeRoute_totals_finite (locations : List Location)
    (matrix : DistanceMatrix) (res : OptimizedRoute)
    (h : optimizeRoute locations matrix = .ok res) :
    ((locations.length ≤ 2 →
        res.totalDistance = 0 ∧ res.totalTime = 0 ∧ res.totalCost = 0) ∧
      (2 < locations.length →
        res.totalDistance = ((res.order.zip res.order.tail).map
          fun p => legDistanceKm matrix p.1 p.2).sum ∧
        res.totalTime = ((res.order.zip res.order.tail).map
          fun p => legDurationMin matrix p.1 p.2).sum ∧
        res.totalCost = ((res.order.zip res.order.tail).map
          fun p => (calculateCost p.1 p.2 matrix).untop' 0).sum)) ∧
    (∀ f t, matrix f t = none ∨ (∃ e, matrix f t = some e ∧ e.status ≠ "OK") →
      legDistanceKm matrix f t = 0 ∧ legDurationMin matrix f t = 0 ∧
        (calculateCost f t matrix).untop' 0 = 0) := by
  constructor
  · constructor
    · intro hlen
      rw [optimizeRoute_degenerate locations matrix hlen] at h
      rw [← Except.ok.inj h]
      exact ⟨rfl, rfl, rfl⟩
    · intro hlen
      obtain ⟨b, hfind⟩ : ∃ b, locations.find? (fun l => l.isBase) = some b := by
        cases hf : locations.find? (fun l => l.isBase) with
        | none =>
            unfold optimizeRoute at h
            rw [if_neg (by omega), hf] at h
            cases h
        | some b => exact ⟨b, rfl⟩
      rw [optimizeRoute_pos locations matrix b (by omega) hfind] at h
      rw [← Except.ok.inj h]
      refine ⟨?_, ?_, ?_⟩
      · show (calculateRouteTotals (nearestNeighborTSP b
            (locations.filter fun l => !l.isBase) matrix) matrix).1 = _
        rw [calculateRouteTotals_eq]
      · show (calculateRouteTotals (nearestNeighborTSP b
            (locations.filter fun l => !l.isBase) matrix) matrix).2.1 = _
        rw [calculateRouteTotals_eq]
      · show (calculateRouteTotals (nearestNeighborTSP b
            (locations.filter fun l => !l.isBase) matrix) matrix).2.2 = _
        rw [calculateRouteTotals_eq]
  · intro f t hft
    rcases hft with hnone | ⟨e, he, hs⟩
    · exact ⟨by simp [legDistanceKm, hnone], by simp [legDurationMin, hnone],
        by simp [calculateCost, hnone]⟩
    · exact ⟨by simp [legDistanceKm, he, hs], by simp [legDurationMin, he, hs],
        by simp [calculateCost, he, hs]⟩

/-- Witness for C10 on a concrete three-stop input. -/
theorem optimizeRoute_totals_finite_witness :
    optimizeRoute [stopA, stopB, stopC] emptyMatrix =
      .ok ⟨["A", "B", "C", "A"], 0, 0, 0⟩ ∧
    (2 < [stopA, stopB, stopC].length →
      OptimizedRoute.totalCost ⟨["A", "B", "C", "A"], 0, 0, 0⟩ =
        (((["A", "B", "C", "A"] : List String).zip
            (["A", "B", "C", "A"] : List String).tail).map
          fun p => (calculateCost p.1 p.2 emptyMatrix).untop' 0).sum) :=
  ⟨rfl, fun _ =>
    ((optimizeRoute_totals_finite [stopA, stopB, stopC] emptyMatrix
      ⟨["A", "B", "C", "A"], 0, 0, 0⟩ rfl).1.2 (by decide)).2.2⟩

end RouteOptimizer
